import Mathlib

/-!
Verification of the RLM-explained server core against its specification.

The development shallowly embeds the Python sources:
  * `server/stream_logger.py`  — the `StreamLogger` event queue,
  * `server/educational/enricher.py` and `annotations.py` — the enricher,
  * `server/file_parser.py`    — the upload parser,
  * `rlm/clients/cerebras.py`  — streaming usage accounting.

Machine-level details that the claims do not touch (timestamps, JSON
serialisation) are abstracted: an event is modelled as a tagged record
rather than a JSON string, and the single-producer / single-consumer
queue is modelled as the list of items in enqueue order, with the
consumer taking items from the front.
-/

/-- Sub-call descriptor entries (`rlm_calls`); only their count and
identity matter to the enricher, so each is kept as its serialised text. -/
def SubCallD : Type := String

instance : DecidableEq SubCallD := fun a b => String.decEq a b

/-- Embedding of the `result` dict attached to a code block
(`REPLResult.to_dict()`): stdout, stderr, locals, execution_time,
rlm_calls.  Times only flow through the code unchanged, so their
numeric type is irrelevant; we use `Int`. -/
structure REPLResultD where
  stdout : String
  stderr : String
  locals : List (String × String)
  execution_time : Int
  rlm_calls : List SubCallD
deriving DecidableEq

/-- A raw code-block dict `{"code": ..., "result": {...}}` as consumed by
`EducationalEnricher.enrich` and `_detect_phase`. -/
structure RawBlock where
  code : String
  result : REPLResultD
deriving DecidableEq

/-- Python value stored under the `final_answer` key of an iteration
event: `None`, a string, or a list/tuple (the enricher explicitly
handles the 2-element tuple form). -/
inductive FAVal where
  | noneV : FAVal
  | strV (s : String) : FAVal
  | listV (xs : List String) : FAVal
deriving DecidableEq

/-- Python truthiness of a `final_answer` value (`if final_answer:`):
`None` and the empty string are falsy, a list/tuple is truthy iff
non-empty. -/
def FAVal.truthy : FAVal → Bool
  | .noneV => false
  | .strV s => s ≠ ""
  | .listV xs => !xs.isEmpty

/-- Payload of `RLMIteration.to_dict()` as read by the enricher:
response, code blocks, optional final answer, iteration time. -/
structure RLMIterationD where
  response : String
  code_blocks : List RawBlock
  final_answer : FAVal
  iteration_time : Int
deriving DecidableEq

/-- Embedding of `RLMMetadata`: model, provider, environment,
max_iterations (the start timestamp is abstracted away). -/
structure RLMMetadata where
  modelName : String
  provider : String
  environment : String
  maxIterations : Nat
deriving DecidableEq

namespace StreamLogger

/-- One queued event record (`server/stream_logger.py` builds these as
JSON dicts; we keep them as tagged records). -/
inductive Event where
  | metadata (m : RLMMetadata)
  | iteration (n : Nat) (it : RLMIterationD)
  | token (iteration : Nat) (content : String)
  | codeResult (iteration : Nat) (code : String) (result : REPLResultD)
  | error (msg : String)
deriving DecidableEq

/-- State of a `StreamLogger` instance: `_iteration_count`,
`_metadata_logged`, the FIFO `_queue` (items in enqueue order, `none`
being the terminal sentinel `None`), and `_metadata`. -/
structure LoggerState where
  iterationCount : Nat
  metadataLogged : Bool
  queue : List (Option Event)
  metadataVal : Option RLMMetadata

/-- `StreamLogger.__init__`. -/
def initLogger : LoggerState :=
  { iterationCount := 0, metadataLogged := false, queue := [], metadataVal := none }

/-- `StreamLogger.log_metadata`: idempotent via `_metadata_logged`. -/
def logMetadata (s : LoggerState) (m : RLMMetadata) : LoggerState :=
  if s.metadataLogged then s
  else
    { s with
      metadataVal := some m
      queue := s.queue ++ [some (Event.metadata m)]
      metadataLogged := true }

/-- `StreamLogger.log`: bump `_iteration_count`, enqueue an `iteration`
event carrying the new counter value. -/
def log (s : LoggerState) (it : RLMIterationD) : LoggerState :=
  { s with
    iterationCount := s.iterationCount + 1
    queue := s.queue ++ [some (Event.iteration (s.iterationCount + 1) it)] }

/-- `StreamLogger.log_token`. -/
def logToken (s : LoggerState) (tok : String) (iter : Nat) : LoggerState :=
  { s with queue := s.queue ++ [some (Event.token iter tok)] }

/-- `StreamLogger.log_code_result`. -/
def logCodeResult (s : LoggerState) (iter : Nat) (code : String)
    (result : REPLResultD) : LoggerState :=
  { s with queue := s.queue ++ [some (Event.codeResult iter code result)] }

/-- `StreamLogger.signal_complete`: enqueue the `None` sentinel. -/
def signalComplete (s : LoggerState) : LoggerState :=
  { s with queue := s.queue ++ [none] }

/-- One call made against the logger by a producer. -/
inductive LogCall where
  | callMetadata (m : RLMMetadata)
  | callLog (it : RLMIterationD)
  | callToken (tok : String) (iter : Nat)
  | callCodeResult (iter : Nat) (code : String) (result : REPLResultD)
  | callComplete

/-- Interpret one producer call. -/
def applyCall (s : LoggerState) : LogCall → LoggerState
  | .callMetadata m => logMetadata s m
  | .callLog it => log s it
  | .callToken tok iter => logToken s tok iter
  | .callCodeResult iter code result => logCodeResult s iter code result
  | .callComplete => signalComplete s

/-- Interpret a sequence of producer calls, in order. -/
def applyCalls (s : LoggerState) (cs : List LogCall) : LoggerState :=
  cs.foldl applyCall s

/-- Observable behaviour of a completion function handed to
`stream_iterations`: the logger calls it performs, and the exception
message if it raises afterwards. -/
structure FnBehavior where
  calls : List LogCall
  raises : Option String

/-- The worker body `run_completion`: run the completion function; if it
raised, enqueue an `error` event with the exception text; in all cases
(`finally`) enqueue the terminal sentinel. -/
def runCompletion (s : LoggerState) (fn : FnBehavior) : LoggerState :=
  let s1 := applyCalls s fn.calls
  let s2 :=
    match fn.raises with
    | some msg => { s1 with queue := s1.queue ++ [some (Event.error msg)] }
    | none => s1
  signalComplete s2

/-- The consumer loop of `stream_iterations`: dequeue items in FIFO
order, yielding each event, and stop at the first `None` sentinel.
`none` as the overall result means the loop never terminates (no
sentinel ever arrives and `queue.get()` blocks forever). -/
def consumeLoop : List (Option Event) → Option (List Event)
  | [] => none
  | none :: _ => some []
  | some e :: rest => (consumeLoop rest).map (e :: ·)

/-- Result of a terminating `stream_iterations` call: the events yielded
to the consumer, and whether `thread.join()` was reached. -/
structure StreamOutcome where
  yielded : List Event
  joined : Bool
deriving DecidableEq

/-- `StreamLogger.stream_iterations`: run the worker, consume the queue
until the sentinel, then join the worker.  The generator returns only if
the consumer loop terminates, and joining is the last thing it does. -/
def streamIterations (s : LoggerState) (fn : FnBehavior) : Option StreamOutcome :=
  (consumeLoop (runCompletion s fn).queue).map (fun ys => { yielded := ys, joined := true })

/-- Iteration numbers carried by `iteration` events of a queue, in
queue order. -/
def iterNums (q : List (Option Event)) : List Nat :=
  q.filterMap (fun x =>
    match x with
    | some (Event.iteration n _) => some n
    | _ => none)

/-- Number of `log` calls in a producer call sequence. -/
def countLog (cs : List LogCall) : Nat :=
  cs.countP (fun c =>
    match c with
    | LogCall.callLog _ => true
    | _ => false)

/-- Number of `metadata` events in a queue. -/
def countMeta (q : List (Option Event)) : Nat :=
  q.countP (fun x =>
    match x with
    | some (Event.metadata _) => true
    | _ => false)

end StreamLogger

namespace Educational

open StreamLogger

/-- Atom of one alternation branch of the regex patterns used in
`server/educational/annotations.py`: a literal run, a greedy `.*`, or a
word boundary `\b`. -/
inductive RAtom where
  | lit (cs : String)
  | star
  | wordB

/-- Word characters for `\b` (`[A-Za-z0-9_]`; the patterns only probe
ASCII contexts). -/
def isWordChar (c : Char) : Bool := c.isAlphanum || c = '_'

/-- A `\b` position: the wordness of the characters on the two sides
differs (a missing side counts as non-word). -/
def atBoundary (prev : Option Char) (next : Option Char) : Bool :=
  (match prev with | some c => isWordChar c | none => false)
    != (match next with | some c => isWordChar c | none => false)

/-- Match a branch against a position of the subject.  `prev` is the
character just before the position (for `\b`).  The fuel only bounds the
recursion depth: every step shrinks `atoms.length + s.length`, so fuel
`atoms.length + s.length + 1` always suffices. -/
def matchAtomsF : Nat → List RAtom → Option Char → List Char → Bool
  | 0, _, _, _ => false
  | _ + 1, [], _, _ => true
  | f + 1, RAtom.lit cs :: rest, prev, s =>
      let prevAfter := match cs.data.getLast? with | some c => some c | none => prev
      cs.data.isPrefixOf s && matchAtomsF f rest prevAfter (s.drop cs.data.length)
  | f + 1, RAtom.star :: rest, prev, s =>
      matchAtomsF f rest prev s ||
        (match s with
         | [] => false
         | c :: s' => matchAtomsF f (RAtom.star :: rest) (some c) s')
  | f + 1, RAtom.wordB :: rest, prev, s =>
      atBoundary prev s.head? && matchAtomsF f rest prev s

/-- Match a branch at exactly this position, with sufficient fuel. -/
def matchTop (atoms : List RAtom) (prev : Option Char) (s : List Char) : Bool :=
  matchAtomsF (atoms.length + s.length + 1) atoms prev s

/-- Try the branch at every position, left to right (the existential
collapse of `re.search`). -/
def searchFrom (atoms : List RAtom) (prev : Option Char) : List Char → Bool
  | [] => matchTop atoms prev []
  | c :: s' => matchTop atoms prev (c :: s') || searchFrom atoms (some c) s'

/-- Boolean `re.search(pattern, line)` for an alternation of branches. -/
def reSearch (branches : List (List RAtom)) (line : String) : Bool :=
  branches.any (fun br => searchFrom br none line.data)

/-- One entry of `CODE_PATTERNS`: structured regex, explanation,
importance. -/
structure CodePattern where
  regex : List (List RAtom)
  explanation : String
  importance : String

/-- `CODE_PATTERNS` from `annotations.py`, with each regex translated
into its alternation branches. -/
def CODE_PATTERNS : List CodePattern := [
  { regex := [[RAtom.lit "context[", RAtom.star, RAtom.lit "]"],
              [RAtom.lit "context[:"],
              [RAtom.wordB, RAtom.lit "context", RAtom.wordB]]
    explanation := "Accessing the transcript data. RLM treats your document as a variable it can slice and analyze."
    importance := "key" },
  { regex := [[RAtom.lit "llm_query("]]
    explanation := "Calling a sub-LM (recursive call). This is where RLM delegates part of the analysis to another language model."
    importance := "key" },
  { regex := [[RAtom.lit "llm_query_batched("]]
    explanation := "Calling multiple sub-LMs in parallel. This dramatically speeds up analysis of multiple chunks."
    importance := "key" },
  { regex := [[RAtom.lit "for ", RAtom.star, RAtom.lit " in ", RAtom.star, RAtom.lit "chunk"],
              [RAtom.lit "for ", RAtom.star, RAtom.lit " in ", RAtom.star, RAtom.lit "section"]]
    explanation := "Iterating over chunks of the document. RLM breaks large texts into manageable pieces."
    importance := "context" },
  { regex := [[RAtom.lit "buffer", RAtom.star, RAtom.lit "="],
              [RAtom.lit "buffers.append"],
              [RAtom.lit "answers.append"]]
    explanation := "Accumulating information across iterations. RLM builds up knowledge step by step."
    importance := "context" },
  { regex := [[RAtom.lit "print("]]
    explanation := "Outputting to the REPL. RLM can see this output in the next iteration to guide its reasoning."
    importance := "detail" },
  { regex := [[RAtom.lit "len(context)"], [RAtom.lit "len("]]
    explanation := "Measuring the size of data. RLM often checks lengths to decide how to chunk."
    importance := "detail" },
  { regex := [[RAtom.lit "FINAL("], [RAtom.lit "FINAL_VAR("]]
    explanation := "Signaling the final answer! This tells RLM that it has found the answer."
    importance := "key" }]

/-- Helper loop for `pySplitNewline`, accumulating the current line in
reverse. -/
def splitLinesAux (acc : List Char) : List Char → List String
  | [] => [String.mk acc.reverse]
  | c :: cs =>
      if c = '\n' then String.mk acc.reverse :: splitLinesAux [] cs
      else splitLinesAux (c :: acc) cs

/-- Python `code.split("\n")`: split on every newline, keeping empty
parts (the empty string splits to `[""]`). -/
def pySplitNewline (s : String) : List String := splitLinesAux [] s.data

/-- One produced annotation record: line (1-based), explanation,
importance. -/
structure LineAnnot where
  line : Nat
  explanation : String
  importance : String
deriving DecidableEq

/-- The inner pattern loop of `CodeAnnotator.annotate`: the first
pattern whose regex matches the line (the `break`). -/
def firstMatch (line : String) : Option CodePattern :=
  CODE_PATTERNS.find? (fun p => reSearch p.regex line)

/-- The enumerate-from-1 loop of `CodeAnnotator.annotate`. -/
def annotateLines (i : Nat) : List String → List LineAnnot
  | [] => []
  | l :: ls =>
      (match firstMatch l with
       | some p => [{ line := i, explanation := p.explanation, importance := p.importance }]
       | none => []) ++ annotateLines (i + 1) ls

/-- `CodeAnnotator.annotate`: split on newlines, annotate each line with
its first matching pattern. -/
def annotate (code : String) : List LineAnnot :=
  annotateLines 1 (pySplitNewline code)
end Educational

namespace Educational

/-- Python `str.lower()` (ASCII case folding, which covers every
character the phase tests probe). -/
def pyLower (s : String) : String := String.mk (s.data.map Char.toLower)

/-- Contiguous containment of one character list in another. -/
def listContains (needle : List Char) : List Char → Bool
  | [] => needle.isEmpty
  | c :: rest => needle.isPrefixOf (c :: rest) || listContains needle rest

/-- Python substring test `needle in hay`. -/
def strIn (needle hay : String) : Bool := listContains needle.data hay.data

/-- `EducationalEnricher._detect_phase`, translated clause by clause:
truthy final answer, then the two `any`-over-blocks tests, then the
chunk/split test on the lowercased response. -/
def detectPhase (response : String) (codeBlocks : List RawBlock)
    (finalAnswer : FAVal) : String :=
  let responseLower := pyLower response
  if finalAnswer.truthy then "answering"
  else
    let hasLlmQuery := codeBlocks.any (fun b => strIn "llm_query" b.code)
    let hasBuffer := codeBlocks.any (fun b =>
      strIn "buffer" b.code || strIn "answer" b.code)
    if hasLlmQuery && hasBuffer then "synthesizing"
    else if hasLlmQuery then "analyzing"
    else if strIn "chunk" responseLower || strIn "split" responseLower then "analyzing"
    else "exploring"

/-- The phase classifier exactly as the claim words it: `answering` when
`final_answer` is present; else `synthesizing` when at least one single
code block mentions both a sub-query primitive and a buffer/answer name;
else `analyzing` when some block mentions a sub-query primitive or the
response mentions chunk/split; else `exploring`. -/
def claimPhase (response : String) (codeBlocks : List RawBlock)
    (finalAnswer : FAVal) : String :=
  if finalAnswer ≠ FAVal.noneV then "answering"
  else if codeBlocks.any (fun b =>
      strIn "llm_query" b.code && (strIn "buffer" b.code || strIn "answer" b.code)) then
    "synthesizing"
  else if codeBlocks.any (fun b => strIn "llm_query" b.code)
      || strIn "chunk" (pyLower response) || strIn "split" (pyLower response) then
    "analyzing"
  else "exploring"

/-- The phase classifier as the amended claim words it: `answering` when
`final_answer` is truthy (present and non-empty); else `synthesizing`
when some code block mentions a sub-query primitive and some code block,
possibly a different one, mentions a buffer/answer name; else
`analyzing` when some block mentions a sub-query primitive or the
response mentions chunk/split (case-insensitively); else `exploring`. -/
def amendedPhase (response : String) (codeBlocks : List RawBlock)
    (finalAnswer : FAVal) : String :=
  if finalAnswer.truthy then "answering"
  else if (codeBlocks.any fun b => strIn "llm_query" b.code)
      && (codeBlocks.any fun b => strIn "buffer" b.code || strIn "answer" b.code) then
    "synthesizing"
  else if (codeBlocks.any fun b => strIn "llm_query" b.code)
      || (strIn "chunk" (pyLower response) || strIn "split" (pyLower response)) then
    "analyzing"
  else "exploring"

end Educational

namespace Educational

/-- One value of `PHASE_EXPLANATIONS`: icon, title, explanation,
importance. -/
structure PhaseInfo where
  icon : String
  title : String
  explanation : String
  importance : String
deriving DecidableEq

/-- The `PHASE_EXPLANATIONS` dict of `annotations.py` as a lookup
function (`.get(phase, {})` yields `none` off the four keys). -/
def PHASE_EXPLANATIONS (phase : String) : Option PhaseInfo :=
  if phase = "exploring" then
    some
      { icon := "magnifying_glass"
        title := "Exploring"
        explanation := "The RLM is examining your document to understand its structure. It\x27s figuring out how long the text is, what format it\x27s in, and planning how to break it into chunks."
        importance := "This exploration phase is crucial. RLM can handle documents of any length by first understanding what it\x27s working with." }
  else if phase = "analyzing" then
    some
      { icon := "chart_bar"
        title := "Analyzing"
        explanation := "The RLM is breaking your document into chunks and analyzing each one. It uses sub-LMs (smaller language models) to process each chunk, extracting relevant information to answer your question."
        importance := "This is where RLM\x27s recursive nature shines. By dividing the problem, it can handle documents that would be too large for a single LLM call." }
  else if phase = "synthesizing" then
    some
      { icon := "link"
        title := "Synthesizing"
        explanation := "The RLM is combining results from different chunks. It\x27s using buffers to accumulate findings and may query additional sub-LMs to resolve conflicts or fill gaps in the information."
        importance := "Synthesis is how RLM builds coherent understanding from fragmented analysis. It\x27s like assembling pieces of a puzzle." }
  else if phase = "answering" then
    some
      { icon := "check_circle"
        title := "Answering"
        explanation := "The RLM has gathered enough information and is formulating the final answer. It uses FINAL() or FINAL_VAR() to signal that it has completed its analysis."
        importance := "The answer emerges from the iterative process. RLM doesn\x27t guess - it builds up to the answer through systematic analysis." }
  else none

/-- The iteration-event dict handed to `EducationalEnricher.enrich`
(keys `iteration`, `response`, `code_blocks`, `final_answer`,
`iteration_time`; a missing key behaves as the corresponding `.get`
default). -/
structure IterationData where
  iteration : Nat
  response : String
  code_blocks : List RawBlock
  final_answer : FAVal
  iteration_time : Int
deriving DecidableEq

/-- The tuple-format normalisation at the top of `enrich`: a 2-element
list/tuple final answer is replaced by its second element. -/
def unpackFA : FAVal → FAVal
  | FAVal.listV [_, b] => FAVal.strV b
  | fa => fa

/-- A processed code block as built inside `enrich`: flattened result
fields plus the annotations of the block. -/
structure EnrichedBlock where
  code : String
  stdout : String
  stderr : String
  locals : List (String × String)
  executionTime : Int
  subLmCalls : List SubCallD
  annotations : List LineAnnot
deriving DecidableEq

/-- The per-block processing loop of `enrich`. -/
def enrichBlock (b : RawBlock) : EnrichedBlock :=
  { code := b.code
    stdout := b.result.stdout
    stderr := b.result.stderr
    locals := b.result.locals
    executionTime := b.result.execution_time
    subLmCalls := b.result.rlm_calls
    annotations := annotate b.code }

/-- `EducationalEnricher._summarize`: fixed sentences keyed on final
answer, sub-call count and block count. -/
def summarize (_iterationNumber : Nat) (codeBlocks : List EnrichedBlock)
    (finalAnswer : FAVal) : String :=
  let subCalls := (codeBlocks.map (fun b => b.subLmCalls.length)).sum
  if finalAnswer.truthy then
    "RLM found the answer after analyzing the document."
  else if subCalls > 0 then
    "RLM called " ++ toString subCalls ++ " sub-LM(s) to analyze parts of the document."
  else if !codeBlocks.isEmpty then
    "RLM wrote " ++ toString codeBlocks.length ++ " code block(s) to explore the document."
  else
    "RLM is thinking about how to approach the question."

/-- The enriched record returned by `enrich` (`EnrichedIteration`). -/
structure EnrichedIteration where
  iteration_number : Nat
  response : String
  code_blocks : List EnrichedBlock
  final_answer : FAVal
  iteration_time : Int
  phase : String
  phase_info : Option PhaseInfo
  what_happened : String
  code_annotations : List LineAnnot
deriving DecidableEq

/-- `EducationalEnricher.enrich`: extract the fields, normalise a tuple
final answer, detect the phase, process the blocks, summarise. -/
def enrich (d : IterationData) : EnrichedIteration :=
  let iterationNumber := d.iteration
  let response := d.response
  let rawCodeBlocks := d.code_blocks
  let finalAnswer := unpackFA d.final_answer
  let iterationTime := d.iteration_time
  let phase := detectPhase response rawCodeBlocks finalAnswer
  let phaseInfo := PHASE_EXPLANATIONS phase
  let codeBlocks := rawCodeBlocks.map enrichBlock
  let allAnnots := (rawCodeBlocks.map (fun b => annotate b.code)).flatten
  let whatHappened := summarize iterationNumber codeBlocks finalAnswer
  { iteration_number := iterationNumber
    response := response
    code_blocks := codeBlocks
    final_answer := finalAnswer
    iteration_time := iterationTime
    phase := phase
    phase_info := phaseInfo
    what_happened := whatHappened
    code_annotations := allAnnots }

/-- State-threaded rendering of `enrich`, in which every dict operation
of the source is a read returning the store unchanged: the second
component is the input dict as left behind by the call. -/
def enrichST (d0 : IterationData) : EnrichedIteration × IterationData :=
  let (iterationNumber, d1) := (d0.iteration, d0)
  let (response, d2) := (d1.response, d1)
  let (rawCodeBlocks, d3) := (d2.code_blocks, d2)
  let (finalAnswer0, d4) := (d3.final_answer, d3)
  let (iterationTime, d5) := (d4.iteration_time, d4)
  let finalAnswer := unpackFA finalAnswer0
  let phase := detectPhase response rawCodeBlocks finalAnswer
  let phaseInfo := PHASE_EXPLANATIONS phase
  let codeBlocks := rawCodeBlocks.map enrichBlock
  let allAnnots := (rawCodeBlocks.map (fun b => annotate b.code)).flatten
  let whatHappened := summarize iterationNumber codeBlocks finalAnswer
  ({ iteration_number := iterationNumber
     response := response
     code_blocks := codeBlocks
     final_answer := finalAnswer
     iteration_time := iterationTime
     phase := phase
     phase_info := phaseInfo
     what_happened := whatHappened
     code_annotations := allAnnots }, d5)

end Educational

namespace Cerebras

/-- Read a per-model counter (`defaultdict(int)` access). -/
def getCount (l : List (String × Nat)) (k : String) : Nat := (l.lookup k).getD 0

/-- Write a per-model counter. -/
def setCount (l : List (String × Nat)) (k : String) (v : Nat) : List (String × Nat) :=
  (k, v) :: l.filter (fun p => p.1 != k)

/-- Usage-tracking state of a `CerebrasClient`: `model_name`, the three
per-model `defaultdict` counters, and the two last-call counters. -/
structure UsageState where
  modelName : Option String
  model_call_counts : List (String × Nat)
  model_input_tokens : List (String × Nat)
  model_output_tokens : List (String × Nat)
  last_prompt_tokens : Nat
  last_completion_tokens : Nat

/-- `CerebrasClient._track_usage_streaming`: bump the call count, add
`len(full_response) // 4` to the output-token counter, set the
last-completion counter to that value, and leave the input-token
counters untouched. -/
def trackUsageStreaming (st : UsageState) (model : String)
    (fullResponse : String) : UsageState :=
  let st1 := { st with
    model_call_counts :=
      setCount st.model_call_counts model (getCount st.model_call_counts model + 1) }
  let approxTokens := fullResponse.length / 4
  { st1 with
    model_output_tokens :=
      setCount st1.model_output_tokens model
        (getCount st1.model_output_tokens model + approxTokens)
    last_completion_tokens := approxTokens }

/-- Python truthiness of an optional string (`model or ...`,
`if not model`). -/
def truthyStr : Option String → Bool
  | some s => s ≠ ""
  | none => false

/-- The `model = model or self.model_name; if not model: raise` prologue
of `stream_completion`. -/
def resolveModel (arg selfModel : Option String) : Option String :=
  let m := if truthyStr arg then arg else selfModel
  if truthyStr m then m else none

/-- `CerebrasClient.stream_completion`, with the SDK stream abstracted
as the list of chunk contents (`delta.content`, possibly `None`):
resolve the model name or fail, accumulate and yield the non-empty
tokens, then track approximate usage on the full response. -/
def streamCompletion (st : UsageState) (modelArg : Option String)
    (chunks : List (Option String)) :
    Except String (List String × String × UsageState) :=
  match resolveModel modelArg st.modelName with
  | none => Except.error "Model name is required for Cerebras client."
  | some model =>
      let step := fun (acc : List String × String) (c : Option String) =>
        let token := c.getD ""
        if token ≠ "" then (acc.1 ++ [token], acc.2 ++ token) else acc
      let res := chunks.foldl step ([], "")
      Except.ok (res.1, res.2, trackUsageStreaming st model res.2)

end Cerebras

/-- A concrete usage state for the C7 witness. -/
def sampleUsage : Cerebras.UsageState :=
  { modelName := some "gpt-oss-120b"
    model_call_counts := [("gpt-oss-120b", 2)]
    model_input_tokens := [("gpt-oss-120b", 40)]
    model_output_tokens := [("gpt-oss-120b", 9)]
    last_prompt_tokens := 7
    last_completion_tokens := 3 }

namespace FileParser

/-- Characters after the last dot (the `parts[1]` of
`filename.lower().rsplit(".", 1)`). -/
def extChars (cs : List Char) : List Char :=
  (cs.reverse.takeWhile (fun c => c ≠ '.')).reverse

/-- Extension extraction of `parse_file`: lowercase the filename, then
split off everything after the last dot; `none` when the filename has no
dot (the `len(parts) == 1` branch). -/
def extOf (filename : String) : Option String :=
  let lowered := Educational.pyLower filename
  if lowered.data.contains '.' then some (String.mk (extChars lowered.data))
  else none

/-- The upload parser entry point of `server/file_parser.py`.  The two
external capabilities are parameters: `dec` is strict UTF-8 decoding
(`none` on a decode error), `decReplace` is the total replacement-mode
decoding, and the pair `markerAvailable`/`pdfConvert` stands for the
optional marker-pdf converter dependency.  Exceptions are
`Except.error`. -/
def parse_file (dec : List Nat → Option String) (decReplace : List Nat → String)
    (markerAvailable : Bool) (pdfConvert : List Nat → String)
    (filename : String) (content : List Nat) : Except String (String × String) :=
  match extOf filename with
  | none =>
      Except.error ("File has no extension: " ++ filename
        ++ ". Supported extensions: .txt, .md, .pdf")
  | some ext =>
      if ext == "txt" || ext == "md" then
        match dec content with
        | some text => Except.ok (text, ext)
        | none => Except.ok (decReplace content, ext)
      else if ext == "pdf" then
        if markerAvailable then Except.ok (pdfConvert content, "pdf")
        else
          Except.error "marker-pdf is required for PDF parsing. Install with: pip install marker-pdf"
      else
        Except.error ("Unsupported file type: ." ++ ext ++ ". Supported: .txt, .md, .pdf")

end FileParser

namespace StreamLogger

theorem applyCall_queue_ext (s : LoggerState) (c : LogCall) :
    ∃ t, (applyCall s c).queue = s.queue ++ t := by
  cases c with
  | callMetadata m =>
      by_cases h : s.metadataLogged
      · exact ⟨[], by simp [applyCall, logMetadata, h]⟩
      · exact ⟨[some (Event.metadata m)], by simp [applyCall, logMetadata, h]⟩
  | callLog it => exact ⟨_, rfl⟩
  | callToken tok iter => exact ⟨_, rfl⟩
  | callCodeResult iter code result => exact ⟨_, rfl⟩
  | callComplete => exact ⟨_, rfl⟩

theorem applyCalls_queue_ext (cs : List LogCall) (s : LoggerState) :
    ∃ t, (applyCalls s cs).queue = s.queue ++ t := by
  induction cs generalizing s with
  | nil => exact ⟨[], by simp [applyCalls]⟩
  | cons c cs ih =>
      obtain ⟨t1, h1⟩ := applyCall_queue_ext s c
      obtain ⟨t2, h2⟩ := ih (applyCall s c)
      exact ⟨t1 ++ t2, by simp [applyCalls] at h2 ⊢; rw [h2, h1, List.append_assoc]⟩

theorem consumeLoop_map_some_sentinel (xs : List Event) (rest : List (Option Event)) :
    consumeLoop (xs.map some ++ none :: rest) = some xs := by
  induction xs with
  | nil => simp [consumeLoop]
  | cons e es ih => simp [consumeLoop, ih]

theorem consumeLoop_decomp (q : List (Option Event)) (hq : none ∈ q) :
    ∃ pre post, q = pre.map some ++ none :: post ∧ consumeLoop q = some pre := by
  induction q with
  | nil => cases hq
  | cons x xs ih =>
      cases x with
      | none => exact ⟨[], xs, by simp [consumeLoop]⟩
      | some e =>
          have hx : none ∈ xs := by simpa using hq
          obtain ⟨pre, post, hdecomp, hcons⟩ := ih hx
          exact ⟨e :: pre, post, by simp [hdecomp], by simp [consumeLoop, hcons]⟩

theorem consumeLoop_sentinel_tail_irrelevant (q : List (Option Event))
    (r r' : List (Option Event)) :
    consumeLoop (q ++ none :: r) = consumeLoop (q ++ none :: r') := by
  induction q with
  | nil => simp [consumeLoop]
  | cons x xs ih =>
      cases x with
      | none => simp [consumeLoop]
      | some e => simp [consumeLoop, ih]

theorem runCompletion_sentinel (s : LoggerState) (fn : FnBehavior) :
    none ∈ (runCompletion s fn).queue := by
  cases h : fn.raises <;> simp [runCompletion, signalComplete, h]

end StreamLogger

namespace StreamLogger

theorem iterNums_append (q1 q2 : List (Option Event)) :
    iterNums (q1 ++ q2) = iterNums q1 ++ iterNums q2 := by
  simp [iterNums]

theorem applyCalls_iterations (cs : List LogCall) (s : LoggerState) :
    iterNums (applyCalls s cs).queue
      = iterNums s.queue ++ List.range' (s.iterationCount + 1) (countLog cs)
    ∧ (applyCalls s cs).iterationCount = s.iterationCount + countLog cs := by
  induction cs generalizing s with
  | nil => simp [applyCalls, countLog]
  | cons c cs ih =>
      have hstep : applyCalls s (c :: cs) = applyCalls (applyCall s c) cs := rfl
      cases c with
      | callLog it =>
          obtain ⟨h1, h2⟩ := ih (applyCall s (LogCall.callLog it))
          rw [hstep]
          refine ⟨?_, ?_⟩
          · rw [h1]
            simp [applyCall, log, iterNums_append, iterNums, countLog,
              List.countP_cons, List.range'_succ]
          · rw [h2]
            simp [applyCall, log, countLog, List.countP_cons]
            omega
      | callMetadata m =>
          obtain ⟨h1, h2⟩ := ih (applyCall s (LogCall.callMetadata m))
          rw [hstep]
          by_cases hm : s.metadataLogged
          · refine ⟨?_, ?_⟩
            · rw [h1]; simp [applyCall, logMetadata, hm, countLog, List.countP_cons]
            · rw [h2]; simp [applyCall, logMetadata, hm, countLog, List.countP_cons]
          · refine ⟨?_, ?_⟩
            · rw [h1]
              simp [applyCall, logMetadata, hm, iterNums_append, iterNums, countLog,
                List.countP_cons]
            · rw [h2]; simp [applyCall, logMetadata, hm, countLog, List.countP_cons]
      | callToken tok iter =>
          obtain ⟨h1, h2⟩ := ih (applyCall s (LogCall.callToken tok iter))
          rw [hstep]
          refine ⟨?_, ?_⟩
          · rw [h1]
            simp [applyCall, logToken, iterNums_append, iterNums, countLog,
              List.countP_cons]
          · rw [h2]; simp [applyCall, logToken, countLog, List.countP_cons]
      | callCodeResult iter code result =>
          obtain ⟨h1, h2⟩ := ih (applyCall s (LogCall.callCodeResult iter code result))
          rw [hstep]
          refine ⟨?_, ?_⟩
          · rw [h1]
            simp [applyCall, logCodeResult, iterNums_append, iterNums, countLog,
              List.countP_cons]
          · rw [h2]; simp [applyCall, logCodeResult, countLog, List.countP_cons]
      | callComplete =>
          obtain ⟨h1, h2⟩ := ih (applyCall s LogCall.callComplete)
          rw [hstep]
          refine ⟨?_, ?_⟩
          · rw [h1]
            simp [applyCall, signalComplete, iterNums_append, iterNums, countLog,
              List.countP_cons]
          · rw [h2]; simp [applyCall, signalComplete, countLog, List.countP_cons]

theorem countMeta_append (q1 q2 : List (Option Event)) :
    countMeta (q1 ++ q2) = countMeta q1 + countMeta q2 := by
  simp [countMeta, List.countP_append]

theorem countMeta_bound (cs : List LogCall) (s : LoggerState)
    (h : countMeta s.queue ≤ if s.metadataLogged then 1 else 0) :
    countMeta (applyCalls s cs).queue
      ≤ if (applyCalls s cs).metadataLogged then 1 else 0 := by
  induction cs generalizing s with
  | nil => simpa [applyCalls] using h
  | cons c cs ih =>
      have hstep : applyCalls s (c :: cs) = applyCalls (applyCall s c) cs := rfl
      rw [hstep]
      apply ih
      cases c with
      | callMetadata m =>
          cases hm : s.metadataLogged with
          | true => simpa [applyCall, logMetadata, hm] using h
          | false =>
              rw [hm] at h
              simp only [Bool.false_eq_true, if_false, Nat.le_zero] at h
              have hq : (applyCall s (LogCall.callMetadata m)).queue
                  = s.queue ++ [some (Event.metadata m)] := by
                simp [applyCall, logMetadata, hm]
              have hf : (applyCall s (LogCall.callMetadata m)).metadataLogged = true := by
                simp [applyCall, logMetadata, hm]
              have hone : countMeta [some (Event.metadata m)] = 1 := by
                simp [countMeta, List.countP_cons]
              rw [hq, hf, countMeta_append, hone, h]
              simp
      | callLog it =>
          simpa [applyCall, log, countMeta_append, countMeta] using h
      | callToken tok iter =>
          simpa [applyCall, logToken, countMeta_append, countMeta] using h
      | callCodeResult iter code result =>
          simpa [applyCall, logCodeResult, countMeta_append, countMeta] using h
      | callComplete =>
          simpa [applyCall, signalComplete, countMeta_append, countMeta] using h

end StreamLogger

namespace StreamLogger

/-- C2: if the completion function raises during `stream_iterations`, an
`error` event carrying the exception message is enqueued right after the
events of the run, followed by the terminal sentinel; and for every
behaviour of the completion function (raising or not) the generator
terminates at the sentinel, yields the queued events, and joins the
worker before returning. -/
theorem stream_iterations_error_path (s : LoggerState) (calls : List LogCall)
    (msg : String) :
    (runCompletion s { calls := calls, raises := some msg }).queue
      = (applyCalls s calls).queue ++ [some (Event.error msg), none]
    ∧ ∀ raises : Option String, ∃ ys : List Event,
        streamIterations s { calls := calls, raises := raises }
          = some { yielded := ys, joined := true } := by
  constructor
  · simp [runCompletion, signalComplete]
  · intro raises
    obtain ⟨pre, post, hdecomp, hcons⟩ :=
      consumeLoop_decomp _ (runCompletion_sentinel s { calls := calls, raises := raises })
    exact ⟨pre, by simp [streamIterations, hcons]⟩

/-- C4: events are yielded by `stream_iterations` in exactly the order
they were enqueued, and the sentinel enqueued by `signal_complete` ends
the stream: the queue decomposes as the yielded events (in order)
followed by the sentinel, and whatever the producer enqueues after
`signal_complete` leaves the yielded stream unchanged. -/
theorem stream_order_and_terminal (cs₁ cs₂ : List LogCall) :
    ∃ ys post,
      streamIterations initLogger
          { calls := cs₁ ++ LogCall.callComplete :: cs₂, raises := none }
        = some { yielded := ys, joined := true }
      ∧ (runCompletion initLogger
            { calls := cs₁ ++ LogCall.callComplete :: cs₂, raises := none }).queue
          = ys.map some ++ none :: post
      ∧ streamIterations initLogger
            { calls := cs₁ ++ [LogCall.callComplete], raises := none }
          = some { yielded := ys, joined := true } := by
  have happA : applyCalls initLogger (cs₁ ++ LogCall.callComplete :: cs₂)
      = applyCalls (signalComplete (applyCalls initLogger cs₁)) cs₂ := by
    simp [applyCalls, List.foldl_append, applyCall]
  obtain ⟨t, ht⟩ := applyCalls_queue_ext cs₂ (signalComplete (applyCalls initLogger cs₁))
  have hqA : (runCompletion initLogger
      { calls := cs₁ ++ LogCall.callComplete :: cs₂, raises := none }).queue
      = (applyCalls initLogger cs₁).queue ++ none :: (t ++ [none]) := by
    have hstep : (runCompletion initLogger
        { calls := cs₁ ++ LogCall.callComplete :: cs₂, raises := none }).queue
        = (applyCalls (signalComplete (applyCalls initLogger cs₁)) cs₂).queue
            ++ [none] := by
      rw [show runCompletion initLogger
          { calls := cs₁ ++ LogCall.callComplete :: cs₂, raises := none }
          = signalComplete (applyCalls initLogger
              (cs₁ ++ LogCall.callComplete :: cs₂)) from rfl, happA]
      rfl
    rw [hstep, ht]
    simp [signalComplete]
  have hqB : (runCompletion initLogger
      { calls := cs₁ ++ [LogCall.callComplete], raises := none }).queue
      = (applyCalls initLogger cs₁).queue ++ none :: [none] := by
    have happB : applyCalls initLogger (cs₁ ++ [LogCall.callComplete])
        = signalComplete (applyCalls initLogger cs₁) := by
      simp [applyCalls, List.foldl_append, applyCall]
    rw [show runCompletion initLogger
        { calls := cs₁ ++ [LogCall.callComplete], raises := none }
        = signalComplete (applyCalls initLogger
            (cs₁ ++ [LogCall.callComplete])) from rfl, happB]
    simp [signalComplete]
  have hsent : none ∈ (runCompletion initLogger
      { calls := cs₁ ++ LogCall.callComplete :: cs₂, raises := none }).queue :=
    runCompletion_sentinel _ _
  obtain ⟨pre, post, hdec, hcons⟩ := consumeLoop_decomp _ hsent
  have hconsA : consumeLoop
      ((applyCalls initLogger cs₁).queue ++ none :: (t ++ [none])) = some pre := by
    rw [← hqA]; exact hcons
  have hconsB : consumeLoop
      ((applyCalls initLogger cs₁).queue ++ none :: [none]) = some pre := by
    rw [consumeLoop_sentinel_tail_irrelevant _ [none] (t ++ [none])]
    exact hconsA
  refine ⟨pre, post, ?_, hdec, ?_⟩
  · simp [streamIterations, hcons]
  · simp [streamIterations, hqB, hconsB]

/-- C5: the logger constructs with iteration counter 0, `log` increments
it by exactly one, and across any producer call sequence the `iteration`
events in the queue carry the numbers 1, 2, ..., n in order, where n is
the number of `log` calls. -/
theorem log_iteration_numbers (cs : List LogCall) (s : LoggerState)
    (it : RLMIterationD) :
    initLogger.iterationCount = 0
    ∧ (log s it).iterationCount = s.iterationCount + 1
    ∧ (applyCalls initLogger cs).iterationCount = countLog cs
    ∧ iterNums (applyCalls initLogger cs).queue = List.range' 1 (countLog cs) := by
  obtain ⟨h1, h2⟩ := applyCalls_iterations cs initLogger
  refine ⟨rfl, rfl, by simpa [initLogger] using h2, ?_⟩
  rw [h1]
  simp [initLogger, iterNums]

/-- C6: `log_metadata` enqueues exactly one `metadata` event on its first
call, every later call (with any argument) leaves the logger completely
unchanged, and no reachable queue ever holds more than one `metadata`
event. -/
theorem log_metadata_idempotent (s : LoggerState) (m m' : RLMMetadata)
    (cs : List LogCall) :
    (s.metadataLogged = false →
      logMetadata s m =
        { s with
          metadataVal := some m
          queue := s.queue ++ [some (Event.metadata m)]
          metadataLogged := true })
    ∧ logMetadata (logMetadata s m) m' = logMetadata s m
    ∧ countMeta (applyCalls initLogger cs).queue ≤ 1 := by
  refine ⟨?_, ?_, ?_⟩
  · intro h
    simp [logMetadata, h]
  · by_cases h : s.metadataLogged
    · simp [logMetadata, h]
    · simp [logMetadata, h]
  · have hbd := countMeta_bound cs initLogger (by simp [initLogger, countMeta])
    cases hb : (applyCalls initLogger cs).metadataLogged
    · rw [hb] at hbd
      simp only [Bool.false_eq_true, if_false, Nat.le_zero] at hbd
      omega
    · rw [hb] at hbd
      simpa using hbd

/-- Witness for C6 at a concrete logger and metadata records. -/
theorem log_metadata_idempotent_witness :
    (logMetadata initLogger
        { modelName := "gpt-oss-120b", provider := "cerebras",
          environment := "local", maxIterations := 10 } =
      { initLogger with
        metadataVal := some
          { modelName := "gpt-oss-120b", provider := "cerebras",
            environment := "local", maxIterations := 10 }
        queue := initLogger.queue ++ [some (Event.metadata
          { modelName := "gpt-oss-120b", provider := "cerebras",
            environment := "local", maxIterations := 10 })]
        metadataLogged := true })
    ∧ logMetadata
        (logMetadata initLogger
          { modelName := "gpt-oss-120b", provider := "cerebras",
            environment := "local", maxIterations := 10 })
        { modelName := "other", provider := "openai",
          environment := "local", maxIterations := 5 }
      = logMetadata initLogger
          { modelName := "gpt-oss-120b", provider := "cerebras",
            environment := "local", maxIterations := 10 }
    ∧ countMeta (applyCalls initLogger []).queue ≤ 1 := by
  have h := log_metadata_idempotent initLogger
    { modelName := "gpt-oss-120b", provider := "cerebras",
      environment := "local", maxIterations := 10 }
    { modelName := "other", provider := "openai",
      environment := "local", maxIterations := 5 } []
  exact ⟨h.1 rfl, h.2.1, h.2.2⟩

end StreamLogger

namespace Educational

theorem annotate_sample_llm_query :
    annotate "x = llm_query(p)\n\nprint(x)" =
      [{ line := 1
         explanation := "Calling a sub-LM (recursive call). This is where RLM delegates part of the analysis to another language model."
         importance := "key" },
       { line := 3
         explanation := "Outputting to the REPL. RLM can see this output in the next iteration to guide its reasoning."
         importance := "detail" }] := by decide

theorem annotate_sample_context :
    annotate "chunks = [context]" =
      [{ line := 1
         explanation := "Accessing the transcript data. RLM treats your document as a variable it can slice and analyze."
         importance := "key" }] := by decide

theorem annotate_sample_for_chunk :
    annotate "for c in chunks:" =
      [{ line := 1
         explanation := "Iterating over chunks of the document. RLM breaks large texts into manageable pieces."
         importance := "context" }] := by decide

theorem annotate_sample_buffers :
    annotate "buffers.append(x)" =
      [{ line := 1
         explanation := "Accumulating information across iterations. RLM builds up knowledge step by step."
         importance := "context" }] := by decide

theorem annotate_sample_no_match :
    annotate "mycontextual = 1" = [] := by decide

end Educational

namespace Educational

/-- C1 counterexample: with the sub-query primitive and the buffer name
in two different code blocks the code classifies `synthesizing` while
the claim dictates `analyzing`; and with a present-but-empty
`final_answer` the code classifies `exploring` while the claim dictates
`answering`. -/
theorem detect_phase_counterexample :
    detectPhase ""
        [{ code := "llm_query(p)",
           result := { stdout := "", stderr := "", locals := [],
                       execution_time := 0, rlm_calls := [] } },
         { code := "buffer = []",
           result := { stdout := "", stderr := "", locals := [],
                       execution_time := 0, rlm_calls := [] } }]
        FAVal.noneV = "synthesizing"
    ∧ claimPhase ""
        [{ code := "llm_query(p)",
           result := { stdout := "", stderr := "", locals := [],
                       execution_time := 0, rlm_calls := [] } },
         { code := "buffer = []",
           result := { stdout := "", stderr := "", locals := [],
                       execution_time := 0, rlm_calls := [] } }]
        FAVal.noneV = "analyzing"
    ∧ detectPhase "hello" [] (FAVal.strV "") = "exploring"
    ∧ claimPhase "hello" [] (FAVal.strV "") = "answering" := by
  refine ⟨by decide, by decide, by decide, by decide⟩

/-- C1 amended: the phase classifier assigns exactly one phase by
first-match precedence, with `answering` requiring a truthy (non-empty)
final answer and `synthesizing` requiring a sub-query primitive in some
block and a buffer/answer name in some (possibly different) block. -/
theorem detect_phase_amended (response : String) (codeBlocks : List RawBlock)
    (finalAnswer : FAVal) :
    detectPhase response codeBlocks finalAnswer
      = amendedPhase response codeBlocks finalAnswer := by
  simp only [detectPhase, amendedPhase]
  cases hT : finalAnswer.truthy <;>
    cases hA : codeBlocks.any (fun b => strIn "llm_query" b.code) <;>
      cases hB : codeBlocks.any (fun b => strIn "buffer" b.code || strIn "answer" b.code) <;>
        cases hC : strIn "chunk" (pyLower response) || strIn "split" (pyLower response) <;>
          simp [hT, hA, hB, hC]

end Educational

namespace Educational

theorem annotateLines_mem (ls : List String) (k : Nat) (a : LineAnnot)
    (ha : a ∈ annotateLines k ls) :
    k ≤ a.line ∧ a.line < k + ls.length
    ∧ ∃ p, firstMatch (ls.getD (a.line - k) "") = some p
        ∧ a.explanation = p.explanation ∧ a.importance = p.importance := by
  induction ls generalizing k with
  | nil => cases ha
  | cons l ls ih =>
      rw [annotateLines] at ha
      rcases List.mem_append.mp ha with h | h
      · cases hf : firstMatch l with
        | none => rw [hf] at h; cases h
        | some p =>
            rw [hf] at h
            simp only [List.mem_singleton] at h
            subst h
            refine ⟨Nat.le_refl k, by simp, p, ?_, rfl, rfl⟩
            simpa [Nat.sub_self] using hf
      · obtain ⟨h1, h2, p, h3, h4, h5⟩ := ih (k + 1) h
        refine ⟨by omega, by simp only [List.length_cons]; omega, p, ?_, h4, h5⟩
        have hidx : a.line - k = (a.line - (k + 1)) + 1 := by omega
        rw [hidx]
        simpa using h3

theorem annotateLines_map_line (ls : List String) (k : Nat) :
    (annotateLines k ls).map (fun a => a.line)
      = ((List.range ls.length).filter
          (fun i => (firstMatch (ls.getD i "")).isSome)).map (fun i => i + k) := by
  induction ls generalizing k with
  | nil => simp [annotateLines]
  | cons l ls ih =>
      have hfun : (fun i : Nat => i + 1 + k) = (fun i : Nat => i + (k + 1)) := by
        funext i; omega
      have hcomp : ((fun i => (firstMatch ((l :: ls).getD i "")).isSome) ∘ Nat.succ)
          = (fun i => (firstMatch (ls.getD i "")).isSome) := by
        funext i; simp
      simp only [annotateLines, List.map_append, List.length_cons,
        List.range_succ_eq_map, List.filter_cons, List.getD_cons_zero,
        List.filter_map, hcomp, List.map_map, ih (k + 1)]
      cases hf : firstMatch l with
      | none => simp [hf, Function.comp_def, hfun]
      | some p => simp [hf, Function.comp_def, hfun]

theorem patterns_importance :
    ∀ p ∈ CODE_PATTERNS,
      p.importance = "key" ∨ p.importance = "context" ∨ p.importance = "detail" := by
  decide

/-- C3: the annotator produces annotations line by line with 1-based
line numbers: the annotated lines are exactly the lines whose first
matching pattern exists, in order and at most once per line, and each
annotation takes its explanation and importance (one of key, context,
detail) from the first pattern of the fixed ordered list that matches
its line. -/
theorem annotate_spec (code : String) :
    (annotate code).map (fun a => a.line)
      = ((List.range (pySplitNewline code).length).filter
          (fun i => (firstMatch ((pySplitNewline code).getD i "")).isSome)).map
          (fun i => i + 1)
    ∧ List.Pairwise (fun a b => a.line < b.line) (annotate code)
    ∧ ∀ a ∈ annotate code,
        1 ≤ a.line ∧ a.line ≤ (pySplitNewline code).length
        ∧ ∃ p, p ∈ CODE_PATTERNS
            ∧ firstMatch ((pySplitNewline code).getD (a.line - 1) "") = some p
            ∧ a.explanation = p.explanation ∧ a.importance = p.importance
            ∧ (p.importance = "key" ∨ p.importance = "context"
                ∨ p.importance = "detail") := by
  have hmap := annotateLines_map_line (pySplitNewline code) 1
  refine ⟨hmap, ?_, ?_⟩
  · have hpw : List.Pairwise (· < ·) ((annotate code).map (fun a => a.line)) := by
      rw [show (annotate code).map (fun a => a.line) = _ from hmap]
      exact List.pairwise_map.mpr
        (((List.pairwise_lt_range _).filter _).imp (by omega))
    exact List.pairwise_map.mp hpw
  · intro a ha
    obtain ⟨h1, h2, p, h3, h4, h5⟩ := annotateLines_mem (pySplitNewline code) 1 a ha
    have hp : p ∈ CODE_PATTERNS := List.mem_of_find?_eq_some h3
    exact ⟨h1, by omega, p, hp, h3, h4, h5, patterns_importance p hp⟩

/-- Witness for C3 at the concrete code string `print(x)`. -/
theorem annotate_spec_witness :
    1 ≤ 1 ∧ 1 ≤ (pySplitNewline "print(x)").length
    ∧ ∃ p, p ∈ CODE_PATTERNS
        ∧ firstMatch ((pySplitNewline "print(x)").getD (1 - 1) "") = some p
        ∧ "Outputting to the REPL. RLM can see this output in the next iteration to guide its reasoning."
            = p.explanation
        ∧ "detail" = p.importance
        ∧ (p.importance = "key" ∨ p.importance = "context"
            ∨ p.importance = "detail") :=
  (annotate_spec "print(x)").2.2
    { line := 1
      explanation := "Outputting to the REPL. RLM can see this output in the next iteration to guide its reasoning."
      importance := "detail" } (by decide)

end Educational

namespace Educational

/-- C8 counterexample: on an event whose `final_answer` is the
2-element tuple `("FINAL", "42")`, the returned record carries the
unpacked string `"42"`, not the original field value. -/
theorem enrich_counterexample :
    (enrich
        { iteration := 1, response := "r", code_blocks := [],
          final_answer := FAVal.listV ["FINAL", "42"],
          iteration_time := 0 }).final_answer
      = FAVal.strV "42"
    ∧ FAVal.strV "42" ≠ FAVal.listV ["FINAL", "42"] :=
  ⟨rfl, by decide⟩

/-- C8 amended: `enrich` is a pure function that leaves its input
unchanged; the returned record embeds the original iteration number,
response and iteration time, the final answer after unpacking a
2-element tuple to its second element, and the code blocks as
restructured copies preserving every result field, plus the education
fields (phase, phase info, summary, flattened annotations). -/
theorem enrich_pure_and_embeds (d : IterationData) (b : RawBlock) :
    (enrichST d).2 = d
    ∧ (enrichST d).1 = enrich d
    ∧ (enrich d).iteration_number = d.iteration
    ∧ (enrich d).response = d.response
    ∧ (enrich d).iteration_time = d.iteration_time
    ∧ (enrich d).final_answer = unpackFA d.final_answer
    ∧ (enrich d).code_blocks = d.code_blocks.map enrichBlock
    ∧ (enrichBlock b).code = b.code
    ∧ (enrichBlock b).stdout = b.result.stdout
    ∧ (enrichBlock b).stderr = b.result.stderr
    ∧ (enrichBlock b).locals = b.result.locals
    ∧ (enrichBlock b).executionTime = b.result.execution_time
    ∧ (enrichBlock b).subLmCalls = b.result.rlm_calls
    ∧ (enrichBlock b).annotations = annotate b.code
    ∧ (enrich d).phase
        = detectPhase d.response d.code_blocks (unpackFA d.final_answer)
    ∧ (enrich d).phase_info = PHASE_EXPLANATIONS (enrich d).phase
    ∧ (enrich d).what_happened
        = summarize d.iteration (d.code_blocks.map enrichBlock)
            (unpackFA d.final_answer)
    ∧ (enrich d).code_annotations
        = (d.code_blocks.map (fun bl => annotate bl.code)).flatten :=
  ⟨rfl, rfl, rfl, rfl, rfl, rfl, rfl, rfl, rfl, rfl, rfl, rfl, rfl, rfl, rfl,
   rfl, rfl, rfl⟩

end Educational

namespace Cerebras

theorem getCount_setCount_self (l : List (String × Nat)) (k : String) (v : Nat) :
    getCount (setCount l k v) k = v := by
  simp [getCount, setCount, List.lookup]

/-- C7: after a streaming completion for model `m` with full output
text, the call count for `m` goes up by one, the cumulative output
tokens for `m` go up by `len(text) / 4` (integer division), the
last-completion counter is set to that value, and both input-token
counters are left unchanged. -/
theorem streaming_usage_accounting (st : UsageState) (m : String) (t : String)
    (modelArg : Option String) (chunks : List (Option String))
    (hres : resolveModel modelArg st.modelName = some m) :
    getCount (trackUsageStreaming st m t).model_call_counts m
        = getCount st.model_call_counts m + 1
    ∧ getCount (trackUsageStreaming st m t).model_output_tokens m
        = getCount st.model_output_tokens m + t.length / 4
    ∧ (trackUsageStreaming st m t).last_completion_tokens = t.length / 4
    ∧ (trackUsageStreaming st m t).model_input_tokens = st.model_input_tokens
    ∧ (trackUsageStreaming st m t).last_prompt_tokens = st.last_prompt_tokens
    ∧ ∃ ys full, streamCompletion st modelArg chunks
        = Except.ok (ys, full, trackUsageStreaming st m full) := by
  refine ⟨?_, ?_, rfl, rfl, rfl, ?_⟩
  · simp [trackUsageStreaming, getCount_setCount_self]
  · simp [trackUsageStreaming, getCount_setCount_self]
  · refine
      ⟨(chunks.foldl (fun (acc : List String × String) (c : Option String) =>
          let token := c.getD ""
          if token ≠ "" then (acc.1 ++ [token], acc.2 ++ token) else acc) ([], "")).1,
       (chunks.foldl (fun (acc : List String × String) (c : Option String) =>
          let token := c.getD ""
          if token ≠ "" then (acc.1 ++ [token], acc.2 ++ token) else acc) ([], "")).2,
       ?_⟩
    simp [streamCompletion, hres]

end Cerebras

/-- Witness for C7 at a concrete state, model and output text. -/
theorem streaming_usage_accounting_witness :
    Cerebras.resolveModel none sampleUsage.modelName = some "gpt-oss-120b"
    ∧ (Cerebras.getCount
          (Cerebras.trackUsageStreaming sampleUsage "gpt-oss-120b" "abcdefghij").model_call_counts
          "gpt-oss-120b"
        = Cerebras.getCount sampleUsage.model_call_counts "gpt-oss-120b" + 1
      ∧ Cerebras.getCount
          (Cerebras.trackUsageStreaming sampleUsage "gpt-oss-120b" "abcdefghij").model_output_tokens
          "gpt-oss-120b"
        = Cerebras.getCount sampleUsage.model_output_tokens "gpt-oss-120b"
            + "abcdefghij".length / 4
      ∧ (Cerebras.trackUsageStreaming sampleUsage "gpt-oss-120b" "abcdefghij").last_completion_tokens
        = "abcdefghij".length / 4
      ∧ (Cerebras.trackUsageStreaming sampleUsage "gpt-oss-120b" "abcdefghij").model_input_tokens
        = sampleUsage.model_input_tokens
      ∧ (Cerebras.trackUsageStreaming sampleUsage "gpt-oss-120b" "abcdefghij").last_prompt_tokens
        = sampleUsage.last_prompt_tokens
      ∧ ∃ ys full, Cerebras.streamCompletion sampleUsage none [some "ab", none, some "cd"]
          = Except.ok (ys, full,
              Cerebras.trackUsageStreaming sampleUsage "gpt-oss-120b" full)) :=
  ⟨by decide,
   Cerebras.streaming_usage_accounting sampleUsage "gpt-oss-120b" "abcdefghij" none
     [some "ab", none, some "cd"] (by decide)⟩

namespace FileParser

/-- C9: `parse_file` rejects filenames without an extension and
filenames with an extension other than txt, md or pdf (the extension is
read case-insensitively, from the lowercased filename), and for a txt
or md extension it returns the decoded text paired with that lowercased
extension; an unsupported extension never returns normally. -/
theorem parse_file_contract (dec : List Nat → Option String)
    (decReplace : List Nat → String) (markerAvailable : Bool)
    (pdfConvert : List Nat → String) (filename : String) (content : List Nat) :
    (extOf filename = none →
      ∃ e, parse_file dec decReplace markerAvailable pdfConvert filename content
        = Except.error e)
    ∧ (∀ ext, extOf filename = some ext →
        ext ≠ "txt" → ext ≠ "md" → ext ≠ "pdf" →
        ∃ e, parse_file dec decReplace markerAvailable pdfConvert filename content
          = Except.error e)
    ∧ (∀ ext, extOf filename = some ext → (ext = "txt" ∨ ext = "md") →
        parse_file dec decReplace markerAvailable pdfConvert filename content
          = Except.ok
              ((match dec content with
                | some text => text
                | none => decReplace content), ext)) := by
  refine ⟨?_, ?_, ?_⟩
  · intro h
    exact ⟨_, by rw [parse_file, h]⟩
  · intro ext h h1 h2 h3
    refine ⟨"Unsupported file type: ." ++ ext ++ ". Supported: .txt, .md, .pdf", ?_⟩
    have c1 : (ext == "txt" || ext == "md") = false := by simp [h1, h2]
    have c2 : (ext == "pdf") = false := by simp [h3]
    rw [parse_file, h]
    simp [c1, c2]
  · intro ext h hx
    rw [parse_file, h]
    rcases hx with hx | hx <;> subst hx <;> cases hd : dec content <;>
      simp [hd]

/-- Witness for C9 at three concrete uploads: a filename without
extension, an unsupported extension, and an `.MD` file. -/
theorem parse_file_contract_witness :
    (∃ e, parse_file (fun _ => some "hi") (fun _ => "rep") false (fun _ => "")
        "README" [104] = Except.error e)
    ∧ (∃ e, parse_file (fun _ => some "hi") (fun _ => "rep") false (fun _ => "")
        "a.xyz" [104] = Except.error e)
    ∧ parse_file (fun _ => some "hi") (fun _ => "rep") false (fun _ => "")
        "b.MD" [104] = Except.ok ("hi", "md") :=
  ⟨(parse_file_contract (fun _ => some "hi") (fun _ => "rep") false (fun _ => "")
      "README" [104]).1 (by decide),
   (parse_file_contract (fun _ => some "hi") (fun _ => "rep") false (fun _ => "")
      "a.xyz" [104]).2.1 "xyz" (by decide) (by decide) (by decide) (by decide),
   (parse_file_contract (fun _ => some "hi") (fun _ => "rep") false (fun _ => "")
      "b.MD" [104]).2.2 "md" (by decide) (Or.inr rfl)⟩

theorem extChars_append_txt (l : List Char) :
    extChars (l ++ ('.' :: 't' :: 'x' :: 't' :: [])) = ['t', 'x', 't'] := by
  simp [extChars, List.takeWhile_cons]

theorem extChars_append_md (l : List Char) :
    extChars (l ++ ('.' :: 'm' :: 'd' :: [])) = ['m', 'd'] := by
  simp [extChars, List.takeWhile_cons]

/-- C10: for a filename whose lowercased form ends in `.txt` or `.md`,
`parse_file` returns normally for every byte content and every strict
decoder: a decode failure falls back to replacement decoding, which is
total, so malformed UTF-8 never propagates an exception. -/
theorem parse_file_txt_md_total (dec : List Nat → Option String)
    (decReplace : List Nat → String) (markerAvailable : Bool)
    (pdfConvert : List Nat → String) (filename : String) (content : List Nat)
    (h : (∃ l, (Educational.pyLower filename).data = l ++ ('.' :: 't' :: 'x' :: 't' :: []))
       ∨ (∃ l, (Educational.pyLower filename).data = l ++ ('.' :: 'm' :: 'd' :: []))) :
    ∃ v, parse_file dec decReplace markerAvailable pdfConvert filename content
      = Except.ok v := by
  have hext : extOf filename = some "txt" ∨ extOf filename = some "md" := by
    rcases h with ⟨l, hl⟩ | ⟨l, hl⟩
    · left
      rw [extOf]
      rw [hl, extChars_append_txt]
      simp
    · right
      rw [extOf]
      rw [hl, extChars_append_md]
      simp
  rcases hext with hext | hext <;>
    · rw [parse_file, hext]
      cases hd : dec content <;> simp [hd]

/-- Witness for C10: an upper-case `.TXT` upload whose bytes make the
strict decoder fail still parses. -/
theorem parse_file_txt_md_total_witness :
    ((∃ l, (Educational.pyLower "weird.TXT").data = l ++ ('.' :: 't' :: 'x' :: 't' :: []))
      ∨ (∃ l, (Educational.pyLower "weird.TXT").data = l ++ ('.' :: 'm' :: 'd' :: [])))
    ∧ ∃ v, parse_file (fun _ => none) (fun _ => "?") false (fun _ => "")
        "weird.TXT" [255] = Except.ok v :=
  ⟨Or.inl ⟨['w', 'e', 'i', 'r', 'd'], by decide⟩,
   parse_file_txt_md_total (fun _ => none) (fun _ => "?") false (fun _ => "")
     "weird.TXT" [255] (Or.inl ⟨['w', 'e', 'i', 'r', 'd'], by decide⟩)⟩

end FileParser
